import Mathlib

/-!
# Verification of the Aevium invitation-claim signing core

Shallow embedding of `generateInvitationClaim` and `generateSubscribeLink`
(the signed, time-bounded invitation claim) together with the cryptographic
primitives they use (HMAC-SHA256, lowercase hex) and the ISO-8601 date
handling of the JavaScript runtime they rely on.

Modelling conventions:
* JavaScript strings are Lean `String`s; byte sequences are `List Nat`
  with every entry below 256; machine words are `Nat` reduced mod 2^32.
* A JavaScript `Record<string, string>` is an association list
  `List (String × String)`; its insertion order is the list order and
  `Object.keys` is `List.map Prod.fst`.  Theorems carry `Nodup`
  hypotheses where a JS object guarantees distinct keys.
* The ambient clock and the random source are injected as explicit
  parameters (`now` in epoch milliseconds, `randomBytes8` a byte list),
  matching the spec's requirement that both be injectable.
* `new Date(s)` is modelled on the ISO `YYYY-MM-DDTHH:MM:SS` second
  format that this repository emits (parse failure = JS `Invalid Date`,
  i.e. `none`); timestamps are nonnegative epoch milliseconds and the
  local offset is taken to be zero.
-/

namespace Aevium

/-! ## Lowercase hexadecimal encoding (Node `Buffer.toString("hex")`) -/

/-- The lowercase hex digit for a nibble: `0`–`9` then `a`–`f`. -/
def hexChar (n : Nat) : Char :=
  if n < 10 then Char.ofNat (48 + n) else Char.ofNat (87 + n)

/-- The sixteen lowercase hexadecimal digit characters. -/
def hexDigits : List Char := (List.range 16).map hexChar

/-- Two lowercase hex digits for one byte, high nibble first. -/
def byteToHex (b : Nat) : List Char := [hexChar (b / 16), hexChar (b % 16)]

/-- Lowercase hex rendering of a byte sequence. -/
def bytesToHex (bs : List Nat) : List Char := (bs.map byteToHex).flatten

/-! ## UTF-8 (Node's default encoding for `hmac.update(string)`) -/

/-- UTF-8 bytes of one Unicode scalar value. -/
def utf8EncodeChar (c : Char) : List Nat :=
  let n := c.toNat
  if n < 128 then [n]
  else if n < 2048 then [192 ||| (n >>> 6), 128 ||| (n &&& 63)]
  else if n < 65536 then
    [224 ||| (n >>> 12), 128 ||| ((n >>> 6) &&& 63), 128 ||| (n &&& 63)]
  else
    [240 ||| (n >>> 18), 128 ||| ((n >>> 12) &&& 63),
     128 ||| ((n >>> 6) &&& 63), 128 ||| (n &&& 63)]

/-- UTF-8 bytes of a string. -/
def utf8Encode (s : String) : List Nat := (s.data.map utf8EncodeChar).flatten

/-! ## SHA-256 (FIPS 180-4), words as `Nat` mod 2^32 -/

/-- 2^32, the word modulus. -/
def w32 : Nat := 4294967296

/-- Rotate a 32-bit word right by `n` bit positions. -/
def rotr (n x : Nat) : Nat := ((x >>> n) ||| (x <<< (32 - n))) % w32

/-- The 64 round constants of SHA-256 (decimal rendering of the FIPS
180-4 table). -/
def shaK : List Nat :=
  [1116352408, 1899447441, 3049323471, 3921009573, 961987163,
   1508970993, 2453635748, 2870763221, 3624381080, 310598401,
   607225278, 1426881987, 1925078388, 2162078206, 2614888103,
   3248222580, 3835390401, 4022224774, 264347078, 604807628,
   770255983, 1249150122, 1555081692, 1996064986, 2554220882,
   2821834349, 2952996808, 3210313671, 3336571891, 3584528711,
   113926993, 338241895, 666307205, 773529912, 1294757372,
   1396182291, 1695183700, 1986661051, 2177026350, 2456956037,
   2730485921, 2820302411, 3259730800, 3345764771, 3516065817,
   3600352804, 4094571909, 275423344, 430227734, 506948616,
   659060556, 883997877, 958139571, 1322822218, 1537002063,
   1747873779, 1955562222, 2024104815, 2227730452, 2361852424,
   2428436474, 2756734187, 3204031479, 3329325298]

/-- The initial hash state of SHA-256 (decimal rendering of the FIPS
180-4 values). -/
def shaH0 : List Nat :=
  [1779033703, 3144134277, 1013904242, 2773480762,
   1359893119, 2600822924, 528734635, 1541459225]

/-- `k` big-endian bytes of `n` (most significant first). -/
def bytesBE : Nat → Nat → List Nat
  | 0, _ => []
  | k + 1, n => bytesBE k (n >>> 8) ++ [n &&& 255]

/-- Big-endian 32-bit words from a byte sequence. -/
def toWords : List Nat → List Nat
  | a :: b :: c :: d :: rest =>
    ((((a <<< 8) ||| b) <<< 8 ||| c) <<< 8 ||| d) :: toWords rest
  | _ => []

/-- SHA-256 padding: append `0x80`, zeros, and the 64-bit bit length. -/
def shaPad (msg : List Nat) : List Nat :=
  let len := msg.length
  let zeros := (119 - len % 64) % 64
  msg ++ [128] ++ List.replicate zeros 0 ++ bytesBE 8 (len * 8)

/-- Split a byte sequence into 64-byte chunks. -/
def chunks64 : List Nat → List (List Nat)
  | [] => []
  | a :: l => ((a :: l).take 64) :: chunks64 ((a :: l).drop 64)
termination_by l => l.length
decreasing_by simp [List.length_drop]; omega

/-- σ₀ message-schedule function. -/
def smallSigma0 (x : Nat) : Nat := (rotr 7 x) ^^^ (rotr 18 x) ^^^ (x >>> 3)

/-- σ₁ message-schedule function. -/
def smallSigma1 (x : Nat) : Nat := (rotr 17 x) ^^^ (rotr 19 x) ^^^ (x >>> 10)

/-- Σ₀ compression function. -/
def bigSigma0 (x : Nat) : Nat := (rotr 2 x) ^^^ (rotr 13 x) ^^^ (rotr 22 x)

/-- Σ₁ compression function. -/
def bigSigma1 (x : Nat) : Nat := (rotr 6 x) ^^^ (rotr 11 x) ^^^ (rotr 25 x)

/-- Extend the 16 chunk words by `n` message-schedule words. -/
def extendW (w : List Nat) : Nat → List Nat
  | 0 => w
  | n + 1 =>
    let w' := extendW w n
    let i := w'.length
    w' ++ [(smallSigma1 (w'.getD (i - 2) 0) + w'.getD (i - 7) 0 +
            smallSigma0 (w'.getD (i - 15) 0) + w'.getD (i - 16) 0) % w32]

/-- One SHA-256 compression round; the state is the eight working words. -/
def compressStep (st : List Nat) (kw : Nat × Nat) : List Nat :=
  match st with
  | [a, b, c, d, e, f, g, h] =>
    let ch := (e &&& f) ^^^ ((e ^^^ 4294967295) &&& g)
    let maj := (a &&& b) ^^^ (a &&& c) ^^^ (b &&& c)
    let t1 := (h + bigSigma1 e + ch + kw.1 + kw.2) % w32
    let t2 := (bigSigma0 a + maj) % w32
    [(t1 + t2) % w32, a, b, c, (d + t1) % w32, e, f, g]
  | other => other

/-- Process one 64-byte chunk against the running hash. -/
def processChunk (h : List Nat) (chunk : List Nat) : List Nat :=
  let w := extendW (toWords chunk) 48
  let st := (shaK.zip w).foldl compressStep h
  (h.zip st).map (fun p => (p.1 + p.2) % w32)

/-- SHA-256 digest (32 bytes) of a byte sequence. -/
def sha256 (msg : List Nat) : List Nat :=
  let hs := (chunks64 (shaPad msg)).foldl processChunk shaH0
  (hs.map (bytesBE 4)).flatten

/-! ## HMAC-SHA256 (RFC 2104), as Node `createHmac("sha256", key)` -/

/-- HMAC-SHA256 of `msg` under `key`, both byte sequences. -/
def hmacSha256 (key msg : List Nat) : List Nat :=
  let k0 := if key.length > 64 then sha256 key else key
  let k := k0 ++ List.replicate (64 - k0.length) 0
  let ipad := k.map (fun b => b ^^^ 54)
  let opad := k.map (fun b => b ^^^ 92)
  sha256 (opad ++ sha256 (ipad ++ msg))

/-- `createHmac("sha256", secret).update(msg).digest("hex")`. -/
def hmacHex (secret msg : String) : String :=
  ⟨bytesToHex (hmacSha256 (utf8Encode secret) (utf8Encode msg))⟩

/-! ## Dates: `new Date(string)`, `Date.toISOString().slice(0, 19)` -/

/-- The ten decimal digit characters `'0'`–`'9'`. -/
def digitChars : List Char := (List.range 10).map (fun n => Char.ofNat (48 + n))

/-- Numeric value of a decimal digit character. -/
def digitVal (c : Char) : Nat := c.toNat - 48

/-- Days from 1970-01-01 to the civil date `y-m-d` (valid for `y ≥ 1970`),
by the standard Gregorian era computation. -/
def daysFromCivil (y m d : Nat) : Nat :=
  let y' := if m ≤ 2 then y - 1 else y
  let era := y' / 400
  let yoe := y' % 400
  let mp := (m + 9) % 12
  let doy := (153 * mp + 2) / 5 + d - 1
  let doe := yoe * 365 + yoe / 4 - yoe / 100 + doy
  era * 146097 + doe - 719468

/-- Civil date `(y, m, d)` of a day count since 1970-01-01. -/
def civilFromDays (z : Nat) : Nat × Nat × Nat :=
  let z' := z + 719468
  let era := z' / 146097
  let doe := z' % 146097
  let yoe := (doe - doe / 1460 + doe / 36524 - doe / 146096) / 365
  let y := yoe + era * 400
  let doy := doe - (365 * yoe + yoe / 4 - yoe / 100)
  let mp := (5 * doy + 2) / 153
  let d := doy - (153 * mp + 2) / 5 + 1
  let m := if mp < 10 then mp + 3 else mp - 9
  (if m ≤ 2 then y + 1 else y, m, d)

/-- `new Date(s)` on the `YYYY-MM-DDTHH:MM:SS` format this repository
emits, as epoch milliseconds; `none` is JS `Invalid Date` (`NaN`). -/
def parseDate (s : String) : Option Nat :=
  match s.data with
  | [y1, y2, y3, y4, '-', m1, m2, '-', d1, d2, 'T',
     h1, h2, ':', n1, n2, ':', s1, s2] =>
    if [y1, y2, y3, y4, m1, m2, d1, d2, h1, h2, n1, n2, s1, s2].all
        (fun c => c ∈ digitChars) then
      let y := ((digitVal y1 * 10 + digitVal y2) * 10 + digitVal y3) * 10 + digitVal y4
      let mo := digitVal m1 * 10 + digitVal m2
      let dd := digitVal d1 * 10 + digitVal d2
      let hh := digitVal h1 * 10 + digitVal h2
      let mi := digitVal n1 * 10 + digitVal n2
      let ss := digitVal s1 * 10 + digitVal s2
      if 1970 ≤ y ∧ 1 ≤ mo ∧ mo ≤ 12 ∧ 1 ≤ dd ∧ dd ≤ 31 ∧
         hh ≤ 23 ∧ mi ≤ 59 ∧ ss ≤ 59 then
        some ((daysFromCivil y mo dd * 86400 + hh * 3600 + mi * 60 + ss) * 1000)
      else none
    else none
  | _ => none

/-- Decimal digits of `n` left-padded with `'0'` to `width`. -/
def padNum (width n : Nat) : List Char :=
  let ds := Nat.toDigits 10 n
  List.replicate (width - ds.length) '0' ++ ds

/-- `new Date(ms).toISOString().slice(0, 19)`: the ISO-8601 rendering of
an epoch-millisecond timestamp truncated to whole seconds. -/
def isoSliced (ms : Nat) : String :=
  let t := ms / 1000
  let dt := civilFromDays (t / 86400)
  let secs := t % 86400
  ⟨padNum 4 dt.1 ++ '-' :: padNum 2 dt.2.1 ++ '-' :: padNum 2 dt.2.2 ++
   'T' :: padNum 2 (secs / 3600) ++ ':' :: padNum 2 (secs % 3600 / 60) ++
   ':' :: padNum 2 (secs % 60)⟩

/-! ## The claim encoder and signer (`generateInvitationClaim`) -/

/-- `invitationFields[key]`: first value bound to `key` (total because it
is only applied to keys of the record; `""` is the unreachable default). -/
def lookupField (fields : List (String × String)) (k : String) : String :=
  match fields with
  | [] => ""
  | (k', v) :: rest => if k' = k then v else lookupField rest k

/-- `segments.join("&")` at the character-list level. -/
def joinAmpL : List (List Char) → List Char
  | [] => []
  | [s] => s
  | s :: rest => s ++ '&' :: joinAmpL rest

/-- `segments.join("&")` on strings. -/
def joinAmp (ss : List String) : String := ⟨joinAmpL (ss.map String.data)⟩

/-- `Object.keys(invitationFields).sort()` (source line 21): the keys of
the record sorted lexicographically ascending. -/
def sortedFields (invitationFields : List (String × String)) : List String :=
  List.insertionSort (fun a b : String => a ≤ b)
    (invitationFields.map Prod.fst)

/-- The canonical string of lines 21–28 of the source: the four fixed
parameters followed by the extra fields sorted lexicographically
ascending by key. -/
def encodeClaim (partner learnerKey salt dateExpiresString : String)
    (invitationFields : List (String × String)) : String :=
  joinAmp
    (["partner=" ++ partner,
      "learner_key=" ++ learnerKey,
      "salt=" ++ salt,
      "date_expires=" ++ dateExpiresString] ++
     (sortedFields invitationFields).map (fun key => "field_" ++ key ++ "=" ++
       lookupField invitationFields key))

/-- The guard of line 16: `new Date(dateExpiresString) < new Date()`.
JS `Date` comparison is numeric on epoch milliseconds and is `false`
whenever the parse failed (`NaN`). -/
def dateBeforeNow (dateExpiresString : String) (now : Nat) : Bool :=
  match parseDate dateExpiresString with
  | some t => decide (t < now)
  | none => false

/-- `generateInvitationClaim` (source lines 8–35): reject a strictly past
expiry, build the canonical string, append the HMAC-SHA256 hex
signature.  The clock is injected as `now` (epoch ms). -/
def generateInvitationClaim (partner : String)
    (invitationFields : List (String × String))
    (invitationSecret learnerKey salt dateExpiresString : String)
    (now : Nat) : Except String String :=
  if dateBeforeNow dateExpiresString now then
    .error "Expiration date must be in the future"
  else
    let claim := encodeClaim partner learnerKey salt dateExpiresString
      invitationFields
    let signature := hmacHex invitationSecret claim
    .ok (claim ++ "&signature=" ++ signature)

/-! ## `generateSubscribeLink` (source lines 45–107) -/

/-- The claim is valid for 15 minutes (source line 6). -/
def CLAIM_DURATION_SECONDS : Nat := 60 * 15

/-- `generateSubscribeLink`: defaults `salt` to
`randomBytes(8).toString("hex")` and `dateExpires` to
`now + CLAIM_DURATION_SECONDS * 1000`, then prefixes the signed claim
with `baseUrl + "/invitation-claim/?"`.  The random source is injected
as `randomBytes8` (the bytes `randomBytes(8)` returned) and the clock
as `now`. -/
def generateSubscribeLink (aeviumBaseUrl partner : String)
    (invitationFields : List (String × String))
    (invitationSecret learnerKey : String)
    (saltOpt : Option String) (dateExpiresOpt : Option Nat)
    (now : Nat) (randomBytes8 : List Nat) : Except String String :=
  let salt := saltOpt.getD ⟨bytesToHex randomBytes8⟩
  let dateExpires := dateExpiresOpt.getD (now + CLAIM_DURATION_SECONDS * 1000)
  (generateInvitationClaim partner invitationFields invitationSecret
      learnerKey salt (isoSliced dateExpires) now).map
    (fun claim => aeviumBaseUrl ++ "/invitation-claim/?" ++ claim)

/-! ## The verifier (spec §4.2 `verify`, absent from the source) -/

/-- Splitting a character list at every `'&'` (query-string parsing). -/
def splitAmp : List Char → List (List Char)
  | [] => [[]]
  | c :: rest =>
    if c = '&' then [] :: splitAmp rest
    else
      match splitAmp rest with
      | [] => [[c]]
      | s :: ss => (c :: s) :: ss

/-- Splitting a parameter at its first `'='` into key and value. -/
def splitEq1 : List Char → List Char × List Char
  | [] => ([], [])
  | c :: rest =>
    if c = '=' then ([], rest)
    else
      let p := splitEq1 rest
      (c :: p.1, p.2)

/-- First value bound to a key in a parsed parameter list. -/
def lookupParam (params : List (List Char × List Char)) (k : List Char) :
    Option (List Char) :=
  match params with
  | [] => none
  | p :: rest => if p.1 = k then some p.2 else lookupParam rest k

/-- Modelled from the spec: the constant-time equality check of §4.2 —
a non-short-circuiting fold that visits every character pair of the two
signatures before delivering the verdict. -/
def constTimeEq (a b : List Char) : Bool :=
  (a.length == b.length) &&
    ((a.zip b).foldl (fun acc p => acc && (p.1 == p.2)) true)

/-- The logical entity being signed (spec §3). -/
structure InvitationClaim where
  partner : String
  learnerKey : String
  salt : String
  dateExpires : String
  fields : List (String × String)
deriving DecidableEq

/-- Modelled from the spec: the verification error taxonomy of §7 that
the source (which only signs) never defines. -/
inductive VerificationError where
  | malformedToken
  | signatureMismatch
  | claimExpired
deriving DecidableEq

/-- Modelled from the spec: `verify(signedClaimString, secret, now)` is
missing from the source — the repository ships only the signer — so it
is taken from §4.2: parse the query-string-like token into an ordered
mapping, extract `signature`, re-derive the canonical string from the
remaining parameters exactly as the encoder would (the `field_*` keys
re-sorted), recompute the HMAC, compare in constant time
(`SignatureMismatchError` on difference), then fail with
`ClaimExpiredError` if `now > expiresAt`, else return the reconstructed
claim. -/
def verifyClaim (token secret : String) (now : Nat) :
    Except VerificationError InvitationClaim :=
  let params := (splitAmp token.data).map splitEq1
  match lookupParam params "signature".data,
      lookupParam params "partner".data,
      lookupParam params "learner_key".data,
      lookupParam params "salt".data,
      lookupParam params "date_expires".data with
  | some sig, some p, some lk, some sa, some d =>
    let fields : List (String × String) :=
      (params.filter (fun q => "field_".data.isPrefixOf q.1)).map
        (fun q => (⟨q.1.drop 6⟩, ⟨q.2⟩))
    let canonical := encodeClaim ⟨p⟩ ⟨lk⟩ ⟨sa⟩ ⟨d⟩ fields
    if constTimeEq (hmacHex secret canonical).data sig then
      match parseDate ⟨d⟩ with
      | some t =>
        if t < now then .error .claimExpired
        else .ok ⟨⟨p⟩, ⟨lk⟩, ⟨sa⟩, ⟨d⟩, fields⟩
      | none => .error .malformedToken
    else .error .signatureMismatch
  | _, _, _, _, _ => .error .malformedToken

end Aevium

namespace Aevium

/-! ## General helper lemmas -/

theorem data_append (a b : String) : (a ++ b).data = a.data ++ b.data := rfl

theorem mk_data (s : String) : String.mk s.data = s := rfl

theorem string_ext {a b : String} (h : a.data = b.data) : a = b := by
  cases a; cases b; cases h; rfl

/-- Signing succeeds exactly with the canonical string followed by
`&signature=` and the hex HMAC whenever the expiry guard passes. -/
theorem generateInvitationClaim_ok (partner : String)
    (fields : List (String × String))
    (secret learnerKey salt dateExpires : String) (now : Nat)
    (h : dateBeforeNow dateExpires now = false) :
    generateInvitationClaim partner fields secret learnerKey salt dateExpires
        now =
      .ok (encodeClaim partner learnerKey salt dateExpires fields ++
        "&signature=" ++
        hmacHex secret (encodeClaim partner learnerKey salt dateExpires
          fields)) := by
  simp [generateInvitationClaim, h]

/-- `lookupField` only depends on the underlying finite map: it is
invariant under permutation when the keys are distinct. -/
theorem lookupField_perm :
    ∀ {f₁ f₂ : List (String × String)}, f₁.Perm f₂ →
      (f₁.map Prod.fst).Nodup → ∀ k, lookupField f₁ k = lookupField f₂ k := by
  intro f₁ f₂ hp
  induction hp with
  | nil => intro _ k; rfl
  | cons x h ih =>
    intro hn k
    obtain ⟨xk, xv⟩ := x
    simp only [List.map_cons, List.nodup_cons] at hn
    simp only [lookupField]
    by_cases hk : xk = k
    · simp [hk]
    · simp only [hk, if_false, ih hn.2 k]
  | swap x y l =>
    intro hn k
    obtain ⟨xk, xv⟩ := x
    obtain ⟨yk, yv⟩ := y
    simp only [List.map_cons, List.nodup_cons, List.mem_cons] at hn
    have hxy : yk ≠ xk := fun e => hn.1 (Or.inl e)
    simp only [lookupField]
    by_cases h1 : yk = k <;> by_cases h2 : xk = k
    · exact absurd (h1.trans h2.symm) hxy
    · simp [h1, h2]
    · simp [h1, h2]
    · simp [h1, h2]
  | trans h₁ h₂ ih₁ ih₂ =>
    intro hn k
    have hn₂ := ((h₁.map Prod.fst).nodup_iff).mp hn
    exact (ih₁ hn k).trans (ih₂ hn₂ k)

/-- The canonical string only depends on the underlying finite map. -/
theorem encodeClaim_perm (partner learnerKey salt dateExpires : String)
    {f₁ f₂ : List (String × String)} (hp : f₁.Perm f₂)
    (hn : (f₁.map Prod.fst).Nodup) :
    encodeClaim partner learnerKey salt dateExpires f₁ =
      encodeClaim partner learnerKey salt dateExpires f₂ := by
  have hkp : (f₁.map Prod.fst).Perm (f₂.map Prod.fst) := hp.map Prod.fst
  have hsort : sortedFields f₁ = sortedFields f₂ :=
    List.eq_of_perm_of_sorted
      ((List.perm_insertionSort _ _).trans
        (hkp.trans (List.perm_insertionSort _ _).symm))
      (List.sorted_insertionSort _ _) (List.sorted_insertionSort _ _)
  have hlook := lookupField_perm hp hn
  simp only [encodeClaim, hsort, hlook]

/-! ## Claim theorems -/

/-- C1: for every claim accepted by the encoder and every secret, the
signed claim returned by `generateInvitationClaim` equals the canonical
string `C`, then `&signature=`, then the lowercase hex of
HMAC-SHA256(secret, C), and nothing else. -/
theorem sign_returns_canonical_and_hmac_hex (partner : String)
    (fields : List (String × String))
    (secret learnerKey salt dateExpires : String) (now : Nat)
    (h : dateBeforeNow dateExpires now = false) :
    generateInvitationClaim partner fields secret learnerKey salt dateExpires
        now =
      .ok (encodeClaim partner learnerKey salt dateExpires fields ++
        "&signature=" ++
        hmacHex secret (encodeClaim partner learnerKey salt dateExpires
          fields)) :=
  generateInvitationClaim_ok partner fields secret learnerKey salt dateExpires
    now h

theorem sign_returns_canonical_and_hmac_hex_witness :
    dateBeforeNow "2025-01-01T00:15:00" 0 = false ∧
      generateInvitationClaim "acme" [("code", "ABC123")] "s3cr3t" "lk_001"
          "deadbeef" "2025-01-01T00:15:00" 0 =
        .ok (encodeClaim "acme" "lk_001" "deadbeef" "2025-01-01T00:15:00"
            [("code", "ABC123")] ++ "&signature=" ++
          hmacHex "s3cr3t" (encodeClaim "acme" "lk_001" "deadbeef"
            "2025-01-01T00:15:00" [("code", "ABC123")])) :=
  ⟨by decide,
   sign_returns_canonical_and_hmac_hex "acme" [("code", "ABC123")] "s3cr3t"
     "lk_001" "deadbeef" "2025-01-01T00:15:00" 0 (by decide)⟩

/-- C2: the canonical string is a deterministic function of the field
values alone: two `fields` maps that are permutations of one another
(distinct keys) encode to byte-identical canonical strings, and the key
sequence the encoder emits for the extra fields is sorted ascending. -/
theorem canonical_string_deterministic
    (partner learnerKey salt dateExpires : String)
    (f₁ f₂ : List (String × String)) (hp : f₁.Perm f₂)
    (hn : (f₁.map Prod.fst).Nodup) :
    encodeClaim partner learnerKey salt dateExpires f₁ =
        encodeClaim partner learnerKey salt dateExpires f₂ ∧
      (sortedFields f₁).Sorted (· ≤ ·) :=
  ⟨encodeClaim_perm partner learnerKey salt dateExpires hp hn,
   List.sorted_insertionSort _ _⟩

theorem canonical_string_deterministic_witness :
    ([("code", "ABC123"), ("campus", "north")].Perm
        [("campus", "north"), ("code", "ABC123")] ∧
      (([("code", "ABC123"), ("campus", "north")] :
          List (String × String)).map Prod.fst).Nodup) ∧
      (encodeClaim "acme" "lk_001" "deadbeef" "2025-01-01T00:15:00"
          [("code", "ABC123"), ("campus", "north")] =
        encodeClaim "acme" "lk_001" "deadbeef" "2025-01-01T00:15:00"
          [("campus", "north"), ("code", "ABC123")] ∧
      (sortedFields [("code", "ABC123"), ("campus", "north")]).Sorted
        (· ≤ ·)) :=
  ⟨⟨by decide, by decide⟩,
   canonical_string_deterministic "acme" "lk_001" "deadbeef"
     "2025-01-01T00:15:00" [("code", "ABC123"), ("campus", "north")]
     [("campus", "north"), ("code", "ABC123")] (by decide) (by decide)⟩

/-- C3: with the current time before the expiry, signing the concrete
scenario claim yields a token whose canonical portion is exactly the
documented string. -/
theorem concrete_scenario_canonical_portion (secret : String) (now : Nat)
    (h : now < 1735690500000) :
    generateInvitationClaim "acme" [("code", "ABC123")] secret "lk_001"
        "deadbeef" "2025-01-01T00:15:00" now =
      .ok (("partner=acme&learner_key=lk_001&salt=deadbeef&date_expires=2025-01-01T00:15:00&field_code=ABC123" : String)
        ++ "&signature=" ++
        hmacHex secret "partner=acme&learner_key=lk_001&salt=deadbeef&date_expires=2025-01-01T00:15:00&field_code=ABC123") := by
  have hc : encodeClaim "acme" "lk_001" "deadbeef" "2025-01-01T00:15:00"
      [("code", "ABC123")] =
      "partner=acme&learner_key=lk_001&salt=deadbeef&date_expires=2025-01-01T00:15:00&field_code=ABC123" := by
    decide
  have hd : dateBeforeNow "2025-01-01T00:15:00" now = false := by
    simp only [dateBeforeNow, show parseDate "2025-01-01T00:15:00" =
      some 1735690500000 from by decide]
    simpa using Nat.not_lt.mpr (Nat.le_of_lt h)
  rw [generateInvitationClaim_ok "acme" [("code", "ABC123")] secret "lk_001"
    "deadbeef" "2025-01-01T00:15:00" now hd, hc]

theorem concrete_scenario_canonical_portion_witness :
    (0 : Nat) < 1735690500000 ∧
      generateInvitationClaim "acme" [("code", "ABC123")] "s3cr3t" "lk_001"
          "deadbeef" "2025-01-01T00:15:00" 0 =
        .ok (("partner=acme&learner_key=lk_001&salt=deadbeef&date_expires=2025-01-01T00:15:00&field_code=ABC123" : String)
          ++ "&signature=" ++
          hmacHex "s3cr3t" "partner=acme&learner_key=lk_001&salt=deadbeef&date_expires=2025-01-01T00:15:00&field_code=ABC123") :=
  ⟨by decide, concrete_scenario_canonical_portion "s3cr3t" 0 (by decide)⟩

/-- C4 counterexample: a claim whose expiry is exactly the current time
(2025-01-01T00:00:00 at epoch-ms 1735689600000) is accepted, not
rejected, because the source's guard is the strict `<` comparison. -/
theorem expiry_equal_to_now_is_accepted :
    (generateInvitationClaim "acme" [("code", "ABC123")] "s3cr3t" "lk_001"
        "deadbeef" "2025-01-01T00:00:00" 1735689600000).isOk = true := rfl

/-- C4 (amended): for every claim whose parsed expiry is strictly before
the current time, signing fails with the `InvalidClaimError` message,
uniformly in the secret — the failure happens before any signature is
computed.  An expiry exactly equal to the current time is accepted. -/
theorem strictly_past_expiry_rejected_before_signing (partner : String)
    (fields : List (String × String))
    (secret learnerKey salt dateExpires : String) (t now : Nat)
    (hparse : parseDate dateExpires = some t) (hlt : t < now) :
    generateInvitationClaim partner fields secret learnerKey salt dateExpires
        now = .error "Expiration date must be in the future" := by
  have hd : dateBeforeNow dateExpires now = true := by
    simp [dateBeforeNow, hparse, hlt]
  simp [generateInvitationClaim, hd]

theorem strictly_past_expiry_rejected_before_signing_witness :
    (parseDate "2025-01-01T00:00:00" = some 1735689600000 ∧
        1735689600000 < 1735689600001) ∧
      generateInvitationClaim "acme" [("code", "ABC123")] "s3cr3t" "lk_001"
          "deadbeef" "2025-01-01T00:00:00" 1735689600001 =
        .error "Expiration date must be in the future" :=
  ⟨⟨by decide, by decide⟩,
   strictly_past_expiry_rejected_before_signing "acme" [("code", "ABC123")]
     "s3cr3t" "lk_001" "deadbeef" "2025-01-01T00:00:00" 1735689600000
     1735689600001 (by decide) (by decide)⟩

/-- C7 counterexample: the source never validates `partner` or
`learnerKey`; a claim with both empty is signed successfully. -/
theorem empty_partner_and_learner_key_accepted :
    (generateInvitationClaim "" [("code", "ABC123")] "s3cr3t" "" "deadbeef"
        "2099-01-01T00:00:00" 0).isOk = true := rfl

/-- C7 (amended): `generateInvitationClaim` performs no emptiness
validation: with an unexpired expiry it succeeds even when `partner` and
`learnerKey` are both empty, embedding the empty values verbatim in the
canonical string. -/
theorem empty_partner_learner_key_still_signed
    (fields : List (String × String)) (secret salt dateExpires : String)
    (now : Nat) (h : dateBeforeNow dateExpires now = false) :
    generateInvitationClaim "" fields secret "" salt dateExpires now =
      .ok (encodeClaim "" "" salt dateExpires fields ++ "&signature=" ++
        hmacHex secret (encodeClaim "" "" salt dateExpires fields)) :=
  generateInvitationClaim_ok "" fields secret "" salt dateExpires now h

theorem empty_partner_learner_key_still_signed_witness :
    dateBeforeNow "2099-01-01T00:00:00" 0 = false ∧
      generateInvitationClaim "" [("code", "ABC123")] "s3cr3t" "" "deadbeef"
          "2099-01-01T00:00:00" 0 =
        .ok (encodeClaim "" "" "deadbeef" "2099-01-01T00:00:00"
            [("code", "ABC123")] ++ "&signature=" ++
          hmacHex "s3cr3t" (encodeClaim "" "" "deadbeef"
            "2099-01-01T00:00:00" [("code", "ABC123")])) :=
  ⟨by decide,
   empty_partner_learner_key_still_signed [("code", "ABC123")] "s3cr3t"
     "deadbeef" "2099-01-01T00:00:00" 0 (by decide)⟩

/-- C8 counterexample: signing with the empty secret succeeds — the
source never validates the secret (Node's HMAC accepts a zero-length
key), so no `InvalidSecretError` exists in the code. -/
theorem empty_secret_accepted :
    (generateInvitationClaim "acme" [("code", "ABC123")] "" "lk_001"
        "deadbeef" "2099-01-01T00:00:00" 0).isOk = true := rfl

/-- C8 (amended): with an empty secret and an unexpired expiry, signing
succeeds and the token carries the HMAC-SHA256 computed under the empty
key. -/
theorem empty_secret_signs_with_empty_key (partner : String)
    (fields : List (String × String)) (learnerKey salt dateExpires : String)
    (now : Nat) (h : dateBeforeNow dateExpires now = false) :
    generateInvitationClaim partner fields "" learnerKey salt dateExpires
        now =
      .ok (encodeClaim partner learnerKey salt dateExpires fields ++
        "&signature=" ++
        hmacHex "" (encodeClaim partner learnerKey salt dateExpires
          fields)) :=
  generateInvitationClaim_ok partner fields "" learnerKey salt dateExpires
    now h

theorem empty_secret_signs_with_empty_key_witness :
    dateBeforeNow "2099-01-01T00:00:00" 0 = false ∧
      generateInvitationClaim "acme" [("code", "ABC123")] "" "lk_001"
          "deadbeef" "2099-01-01T00:00:00" 0 =
        .ok (encodeClaim "acme" "lk_001" "deadbeef" "2099-01-01T00:00:00"
            [("code", "ABC123")] ++ "&signature=" ++
          hmacHex "" (encodeClaim "acme" "lk_001" "deadbeef"
            "2099-01-01T00:00:00" [("code", "ABC123")])) :=
  ⟨by decide,
   empty_secret_signs_with_empty_key "acme" [("code", "ABC123")] "lk_001"
     "deadbeef" "2099-01-01T00:00:00" 0 (by decide)⟩

/-- A joined segment list starts with its head segment. -/
theorem joinAmpL_head (d : List Char) (rest : List (List Char)) :
    ∃ r, joinAmpL (d :: rest) = d ++ r := by
  cases rest with
  | nil => exact ⟨[], (List.append_nil d).symm⟩
  | cons b t => exact ⟨'&' :: joinAmpL (b :: t), rfl⟩

/-- Unfolding one joined segment when at least one more follows. -/
theorem joinAmpL_cons₂ (x y : List Char) (rest : List (List Char)) :
    joinAmpL (x :: y :: rest) = x ++ '&' :: joinAmpL (y :: rest) := rfl

/-- The canonical string starts with the four fixed parameters, the
expiry string embedded verbatim. -/
theorem encodeClaim_decomp (partner learnerKey salt dateExpires : String)
    (fields : List (String × String)) :
    ∃ rest : List Char,
      (encodeClaim partner learnerKey salt dateExpires fields).data =
        ("partner=" ++ partner ++ "&learner_key=" ++ learnerKey ++ "&salt=" ++
          salt ++ "&date_expires=" ++ dateExpires).data ++ rest := by
  simp only [encodeClaim]
  generalize (sortedFields fields).map
    (fun key => "field_" ++ key ++ "=" ++ lookupField fields key) = tail
  obtain ⟨r, hr⟩ := joinAmpL_head ("date_expires=" ++ dateExpires).data
    (tail.map String.data)
  refine ⟨r, ?_⟩
  have hj : (joinAmp (["partner=" ++ partner, "learner_key=" ++ learnerKey,
      "salt=" ++ salt, "date_expires=" ++ dateExpires] ++ tail)).data =
      ("partner=" ++ partner).data ++ '&' ::
        (("learner_key=" ++ learnerKey).data ++ '&' ::
          (("salt=" ++ salt).data ++ '&' ::
            joinAmpL (("date_expires=" ++ dateExpires).data ::
              tail.map String.data))) := rfl
  refine hj.trans ?_
  rw [hr]
  have e1 : ("&learner_key=" : String).data =
      '&' :: ("learner_key=" : String).data := rfl
  have e2 : ("&salt=" : String).data = '&' :: ("salt=" : String).data := rfl
  have e3 : ("&date_expires=" : String).data =
      '&' :: ("date_expires=" : String).data := rfl
  simp only [data_append, e1, e2, e3, List.cons_append, List.append_assoc]

/-- C9: an expiry string that does not parse as a date raises no error —
the comparison with `Invalid Date` is `false` — and the unparseable
string is embedded verbatim as the `date_expires` parameter of the
signed token. -/
theorem unparseable_expiry_no_error_embedded_verbatim (partner : String)
    (fields : List (String × String))
    (secret learnerKey salt dateExpires : String) (now : Nat)
    (h : parseDate dateExpires = none) :
    generateInvitationClaim partner fields secret learnerKey salt dateExpires
        now =
      .ok (encodeClaim partner learnerKey salt dateExpires fields ++
        "&signature=" ++
        hmacHex secret (encodeClaim partner learnerKey salt dateExpires
          fields)) ∧
      ∃ rest : List Char,
        (encodeClaim partner learnerKey salt dateExpires fields).data =
          ("partner=" ++ partner ++ "&learner_key=" ++ learnerKey ++
            "&salt=" ++ salt ++ "&date_expires=" ++ dateExpires).data ++
            rest :=
  ⟨generateInvitationClaim_ok partner fields secret learnerKey salt
      dateExpires now (by simp [dateBeforeNow, h]),
   encodeClaim_decomp partner learnerKey salt dateExpires fields⟩

theorem unparseable_expiry_no_error_embedded_verbatim_witness :
    parseDate "not-a-date" = none ∧
      (generateInvitationClaim "acme" [("code", "ABC123")] "s3cr3t" "lk_001"
          "deadbeef" "not-a-date" 1735689600000 =
        .ok (encodeClaim "acme" "lk_001" "deadbeef" "not-a-date"
            [("code", "ABC123")] ++ "&signature=" ++
          hmacHex "s3cr3t" (encodeClaim "acme" "lk_001" "deadbeef"
            "not-a-date" [("code", "ABC123")])) ∧
      ∃ rest : List Char,
        (encodeClaim "acme" "lk_001" "deadbeef" "not-a-date"
          [("code", "ABC123")]).data =
          ("partner=" ++ "acme" ++ "&learner_key=" ++ "lk_001" ++ "&salt=" ++
            "deadbeef" ++ "&date_expires=" ++ "not-a-date").data ++ rest) :=
  ⟨by decide,
   unparseable_expiry_no_error_embedded_verbatim "acme" [("code", "ABC123")]
     "s3cr3t" "lk_001" "deadbeef" "not-a-date" 1735689600000 (by decide)⟩

/-- C6: `generateSubscribeLink` is exactly
`baseUrl ++ "/invitation-claim/?" ++ sign(claim, secret)`, with an
omitted `dateExpires` defaulting to `now + CLAIM_DURATION_SECONDS * 1000`
rendered as the ISO-8601 string truncated to whole seconds. -/
theorem subscribe_link_composition_and_default_expiry
    (aeviumBaseUrl partner : String) (fields : List (String × String))
    (secret learnerKey salt : String) (dateExpiresOpt : Option Nat)
    (now : Nat) (randomBytes8 : List Nat)
    (h : dateBeforeNow
      (isoSliced (dateExpiresOpt.getD (now + CLAIM_DURATION_SECONDS * 1000)))
      now = false) :
    generateSubscribeLink aeviumBaseUrl partner fields secret learnerKey
        (some salt) dateExpiresOpt now randomBytes8 =
      .ok (aeviumBaseUrl ++ "/invitation-claim/?" ++
        (encodeClaim partner learnerKey salt
            (isoSliced (dateExpiresOpt.getD
              (now + CLAIM_DURATION_SECONDS * 1000))) fields ++
          "&signature=" ++
          hmacHex secret (encodeClaim partner learnerKey salt
            (isoSliced (dateExpiresOpt.getD
              (now + CLAIM_DURATION_SECONDS * 1000))) fields))) := by
  simp only [generateSubscribeLink, Option.getD_some]
  rw [generateInvitationClaim_ok _ _ _ _ _ _ _ h]
  rfl

theorem subscribe_link_composition_and_default_expiry_witness :
    dateBeforeNow
        (isoSliced ((none : Option Nat).getD
          (0 + CLAIM_DURATION_SECONDS * 1000))) 0 = false ∧
      generateSubscribeLink "https://aeviumeducation.com" "acme"
          [("code", "ABC123")] "s3cr3t" "lk_001" (some "deadbeef") none 0
          [] =
        .ok ("https://aeviumeducation.com" ++ "/invitation-claim/?" ++
          (encodeClaim "acme" "lk_001" "deadbeef"
              (isoSliced ((none : Option Nat).getD
                (0 + CLAIM_DURATION_SECONDS * 1000))) [("code", "ABC123")] ++
            "&signature=" ++
            hmacHex "s3cr3t" (encodeClaim "acme" "lk_001" "deadbeef"
              (isoSliced ((none : Option Nat).getD
                (0 + CLAIM_DURATION_SECONDS * 1000)))
              [("code", "ABC123")]))) :=
  ⟨by decide,
   subscribe_link_composition_and_default_expiry "https://aeviumeducation.com"
     "acme" [("code", "ABC123")] "s3cr3t" "lk_001" "deadbeef" none 0 []
     (by decide)⟩

/-- Every nibble renders to one of the sixteen lowercase hex digits. -/
theorem hexChar_mem {n : Nat} (h : n < 16) : hexChar n ∈ hexDigits := by
  interval_cases n <;> decide

/-- Hex rendering doubles the byte count. -/
theorem bytesToHex_length (bs : List Nat) :
    (bytesToHex bs).length = 2 * bs.length := by
  induction bs with
  | nil => rfl
  | cons b t ih =>
    simp only [bytesToHex, List.map_cons, List.flatten_cons,
      List.length_append, List.length_cons] at *
    simp [byteToHex, ih]
    omega

/-- Every character of the hex rendering of genuine bytes is a lowercase
hex digit. -/
theorem bytesToHex_chars {bs : List Nat} (h : ∀ b ∈ bs, b < 256) :
    ∀ c ∈ bytesToHex bs, c ∈ hexDigits := by
  induction bs with
  | nil => intro c hc; cases hc
  | cons b t ih =>
    intro c hc
    simp only [bytesToHex, List.map_cons, List.flatten_cons,
      List.mem_append] at hc
    rcases hc with hc | hc
    · have hb : b < 256 := h b (List.mem_cons_self b t)
      simp only [byteToHex, List.mem_cons, List.not_mem_nil, or_false] at hc
      rcases hc with rfl | rfl
      · exact hexChar_mem (by omega)
      · exact hexChar_mem (by omega)
    · exact ih (fun x hx => h x (List.mem_cons_of_mem b hx)) c hc

/-- C10: when `generateSubscribeLink` is called without a salt, the salt
embedded in the token is exactly the lowercase hex rendering of the 8
bytes drawn from the random source — 16 lowercase hex characters. -/
theorem default_salt_is_hex_of_eight_random_bytes
    (aeviumBaseUrl partner : String) (fields : List (String × String))
    (secret learnerKey : String) (dateExpiresOpt : Option Nat) (now : Nat)
    (randomBytes8 : List Nat) (hlen : randomBytes8.length = 8)
    (hbytes : ∀ b ∈ randomBytes8, b < 256) :
    generateSubscribeLink aeviumBaseUrl partner fields secret learnerKey none
        dateExpiresOpt now randomBytes8 =
      (generateInvitationClaim partner fields secret learnerKey
          (String.mk (bytesToHex randomBytes8))
          (isoSliced (dateExpiresOpt.getD
            (now + CLAIM_DURATION_SECONDS * 1000))) now).map
        (fun claim => aeviumBaseUrl ++ "/invitation-claim/?" ++ claim) ∧
      (String.mk (bytesToHex randomBytes8)).length = 16 ∧
      ∀ c ∈ bytesToHex randomBytes8, c ∈ hexDigits :=
  ⟨rfl,
   by
    show (bytesToHex randomBytes8).length = 16
    rw [bytesToHex_length, hlen],
   bytesToHex_chars hbytes⟩

theorem default_salt_is_hex_of_eight_random_bytes_witness :
    (([222, 173, 190, 239, 1, 35, 69, 103] : List Nat).length = 8 ∧
        ∀ b ∈ ([222, 173, 190, 239, 1, 35, 69, 103] : List Nat), b < 256) ∧
      (generateSubscribeLink "https://aeviumeducation.com" "acme"
          [("code", "ABC123")] "s3cr3t" "lk_001" none none 0
          [222, 173, 190, 239, 1, 35, 69, 103] =
        (generateInvitationClaim "acme" [("code", "ABC123")] "s3cr3t" "lk_001"
            (String.mk (bytesToHex [222, 173, 190, 239, 1, 35, 69, 103]))
            (isoSliced ((none : Option Nat).getD
              (0 + CLAIM_DURATION_SECONDS * 1000))) 0).map
          (fun claim =>
            "https://aeviumeducation.com" ++ "/invitation-claim/?" ++ claim) ∧
      (String.mk (bytesToHex [222, 173, 190, 239, 1, 35, 69, 103])).length =
          16 ∧
      ∀ c ∈ bytesToHex [222, 173, 190, 239, 1, 35, 69, 103],
        c ∈ hexDigits) :=
  ⟨⟨by decide, by decide⟩,
   default_salt_is_hex_of_eight_random_bytes "https://aeviumeducation.com"
     "acme" [("code", "ABC123")] "s3cr3t" "lk_001" none 0
     [222, 173, 190, 239, 1, 35, 69, 103] (by decide) (by decide)⟩

/-! ## Lemmas for the verifier round trip -/

theorem splitAmp_no_amp : ∀ {l : List Char}, '&' ∉ l → splitAmp l = [l] := by
  intro l
  induction l with
  | nil => intro _; rfl
  | cons c rest ih =>
    intro h
    simp only [List.mem_cons, not_or] at h
    simp only [splitAmp]
    rw [if_neg (Ne.symm h.1), ih h.2]

theorem splitAmp_append {a : List Char} (h : '&' ∉ a) (rest : List Char) :
    splitAmp (a ++ '&' :: rest) = a :: splitAmp rest := by
  induction a with
  | nil => simp [splitAmp]
  | cons c t ih =>
    simp only [List.mem_cons, not_or] at h
    have hc : (c :: t) ++ '&' :: rest = c :: (t ++ '&' :: rest) := rfl
    rw [hc]
    simp only [splitAmp]
    rw [if_neg (Ne.symm h.1), ih h.2]

theorem splitAmp_joinAmpL : ∀ {ss : List (List Char)}, ss ≠ [] →
    (∀ s ∈ ss, '&' ∉ s) → splitAmp (joinAmpL ss) = ss := by
  intro ss
  induction ss with
  | nil => intro h _; exact absurd rfl h
  | cons a t ih =>
    intro _ hall
    cases t with
    | nil => exact splitAmp_no_amp (hall a (List.mem_cons_self a []))
    | cons b u =>
      rw [joinAmpL_cons₂, splitAmp_append (hall a (List.mem_cons_self a _)),
        ih (by simp) (fun s hs => hall s (List.mem_cons_of_mem a hs))]

theorem splitEq1_append {k : List Char} (h : '=' ∉ k) (v : List Char) :
    splitEq1 (k ++ '=' :: v) = (k, v) := by
  induction k with
  | nil => simp [splitEq1]
  | cons c t ih =>
    simp only [List.mem_cons, not_or] at h
    have hc : (c :: t) ++ '=' :: v = c :: (t ++ '=' :: v) := rfl
    rw [hc]
    simp only [splitEq1]
    rw [if_neg (Ne.symm h.1), ih h.2]

theorem joinAmpL_append_single (ss : List (List Char)) (x : List Char)
    (h : ss ≠ []) : joinAmpL (ss ++ [x]) = joinAmpL ss ++ '&' :: x := by
  induction ss with
  | nil => exact absurd rfl h
  | cons a t ih =>
    cases t with
    | nil => simp [joinAmpL]
    | cons b u =>
      have h1 : (a :: b :: u) ++ [x] = a :: ((b :: u) ++ [x]) := rfl
      have h2 : (b :: u) ++ [x] = b :: (u ++ [x]) := rfl
      rw [h1, h2, joinAmpL_cons₂, ← h2, ih (by simp), joinAmpL_cons₂,
        List.append_assoc]
      rfl

theorem bytesBE_lt : ∀ (k n : Nat), ∀ b ∈ bytesBE k n, b < 256 := by
  intro k
  induction k with
  | zero => intro n b hb; cases hb
  | succ k ih =>
    intro n b hb
    simp only [bytesBE, List.mem_append, List.mem_cons, List.not_mem_nil,
      or_false] at hb
    rcases hb with hb | rfl
    · exact ih _ b hb
    · have : n &&& 255 ≤ 255 := Nat.and_le_right
      omega

theorem sha256_bytes_lt (msg : List Nat) : ∀ b ∈ sha256 msg, b < 256 := by
  intro b hb
  simp only [sha256, List.mem_flatten, List.mem_map] at hb
  obtain ⟨l, ⟨w, _, rfl⟩, hbl⟩ := hb
  exact bytesBE_lt 4 w b hbl

theorem hmacHex_chars (secret msg : String) :
    ∀ c ∈ (hmacHex secret msg).data, c ∈ hexDigits := by
  intro c hc
  exact bytesToHex_chars (sha256_bytes_lt _) c hc

theorem hmacHex_no_amp (secret msg : String) :
    '&' ∉ (hmacHex secret msg).data := by
  intro h
  have := hmacHex_chars secret msg '&' h
  exact absurd this (by decide)

theorem hmacHex_no_eq (secret msg : String) :
    '=' ∉ (hmacHex secret msg).data := by
  intro h
  have := hmacHex_chars secret msg '=' h
  exact absurd this (by decide)

theorem constTimeEq_self (a : List Char) : constTimeEq a a = true := by
  have hfold : ∀ (l : List Char),
      (l.zip l).foldl (fun acc p => acc && (p.1 == p.2)) true = true := by
    intro l
    induction l with
    | nil => rfl
    | cons c t ih => simpa [List.zip_cons_cons] using ih
  simp [constTimeEq, hfold a]

/-- A key found among the record keys looks up to its paired value in the
key-value list rebuilt from a key list. -/
theorem lookupField_map_pair (g : String → String) :
    ∀ (ks : List String) (k : String), k ∈ ks →
      lookupField (ks.map (fun x => (x, g x))) k = g k := by
  intro ks
  induction ks with
  | nil => intro k hk; cases hk
  | cons a t ih =>
    intro k hk
    simp only [List.map_cons, lookupField]
    by_cases h : a = k
    · simp [h]
    · have hkt : k ∈ t := by
        rcases List.mem_cons.mp hk with h' | h'
        · exact absurd h'.symm h
        · exact h'
      rw [if_neg h, ih k hkt]

/-- With distinct keys, membership determines the lookup result. -/
theorem lookupField_mem :
    ∀ {fields : List (String × String)}, (fields.map Prod.fst).Nodup →
      ∀ {k v : String}, (k, v) ∈ fields → lookupField fields k = v := by
  intro fields
  induction fields with
  | nil => intro _ k v hkv; cases hkv
  | cons a t ih =>
    intro hn k v hkv
    obtain ⟨ak, av⟩ := a
    simp only [List.map_cons, List.nodup_cons] at hn
    simp only [lookupField]
    rcases List.mem_cons.mp hkv with h | h
    · injection h with h1 h2
      subst h1; subst h2
      simp
    · by_cases hak : ak = k
      · subst hak
        exact absurd (List.mem_map.mpr ⟨(ak, v), h, rfl⟩) hn.1
      · rw [if_neg hak]
        exact ih hn.2 h

/-- Any key of the record pairs with its looked-up value inside the
record. -/
theorem mem_of_lookupField :
    ∀ (fields : List (String × String)) (k : String),
      k ∈ fields.map Prod.fst → (k, lookupField fields k) ∈ fields := by
  intro fields
  induction fields with
  | nil => intro k hk; cases hk
  | cons a t ih =>
    intro k hk
    obtain ⟨ak, av⟩ := a
    simp only [lookupField]
    by_cases h : ak = k
    · subst h; simp
    · simp only [List.map_cons, List.mem_cons] at hk
      rcases hk with rfl | hk
      · exact absurd rfl h
      · exact List.mem_cons_of_mem _ (by rw [if_neg h]; exact ih k hk)

/-- The signed token's characters are the encoder's segments joined with
`'&'`, with the signature segment last. -/
theorem token_data (partner learnerKey salt dateExpires secret : String)
    (fields : List (String × String)) :
    (encodeClaim partner learnerKey salt dateExpires fields ++
        "&signature=" ++
        hmacHex secret (encodeClaim partner learnerKey salt dateExpires
          fields)).data =
      joinAmpL (((["partner=" ++ partner, "learner_key=" ++ learnerKey,
          "salt=" ++ salt, "date_expires=" ++ dateExpires] ++
          (sortedFields fields).map (fun key => "field_" ++ key ++ "=" ++
            lookupField fields key)).map String.data) ++
        [("signature=" ++ hmacHex secret (encodeClaim partner learnerKey salt
          dateExpires fields)).data]) := by
  rw [joinAmpL_append_single _ _ (by simp)]
  have hC : (encodeClaim partner learnerKey salt dateExpires fields).data =
      joinAmpL ((["partner=" ++ partner, "learner_key=" ++ learnerKey,
        "salt=" ++ salt, "date_expires=" ++ dateExpires] ++
        (sortedFields fields).map (fun key => "field_" ++ key ++ "=" ++
          lookupField fields key)).map String.data) := rfl
  have e : ("&signature=" : String).data =
      '&' :: ("signature=" : String).data := rfl
  simp only [data_append]
  rw [hC, List.append_assoc]
  rfl

/-- Keys reaching the sorted key list satisfy the per-field constraints. -/
theorem sortedFields_constraints {fields : List (String × String)}
    (hf : ∀ kv ∈ fields, '&' ∉ (Prod.fst kv).data ∧
      '=' ∉ (Prod.fst kv).data ∧ '&' ∉ (Prod.snd kv).data) :
    ∀ k ∈ sortedFields fields, '&' ∉ k.data ∧ '=' ∉ k.data ∧
      '&' ∉ (lookupField fields k).data := by
  intro k hk
  have hk' : k ∈ fields.map Prod.fst := by
    simpa [sortedFields] using hk
  have hmem := mem_of_lookupField fields k hk'
  have h := hf _ hmem
  exact ⟨h.1, h.2.1, h.2.2⟩

/-- The parsed parameter list of a signed token: the four fixed
parameters, the sorted extra fields prefixed by `field_`, and the hex
signature. -/
theorem token_params (partner learnerKey salt dateExpires secret : String)
    (fields : List (String × String))
    (hp : '&' ∉ partner.data) (hl : '&' ∉ learnerKey.data)
    (hs : '&' ∉ salt.data) (hd : '&' ∉ dateExpires.data)
    (hf : ∀ kv ∈ fields, '&' ∉ (Prod.fst kv).data ∧
      '=' ∉ (Prod.fst kv).data ∧ '&' ∉ (Prod.snd kv).data) :
    ((splitAmp (encodeClaim partner learnerKey salt dateExpires fields ++
        "&signature=" ++ hmacHex secret (encodeClaim partner learnerKey salt
          dateExpires fields)).data).map splitEq1) =
      ("partner".data, partner.data) ::
      ("learner_key".data, learnerKey.data) ::
      ("salt".data, salt.data) ::
      ("date_expires".data, dateExpires.data) ::
      ((sortedFields fields).map (fun k => (("field_" ++ k).data,
        (lookupField fields k).data)) ++
       [("signature".data,
         (hmacHex secret (encodeClaim partner learnerKey salt dateExpires
           fields)).data)]) := by
  have hfk := sortedFields_constraints hf
  rw [token_data]
  rw [splitAmp_joinAmpL (by simp) (by
    intro s hsm
    simp only [List.map_append, List.map_cons, List.map_nil,
      List.mem_append, List.mem_cons, List.mem_map, List.not_mem_nil,
      or_false] at hsm
    rcases hsm with ((rfl | rfl | rfl | rfl) | ⟨k, hk, rfl⟩) | rfl
    · rw [data_append]; simp only [List.mem_append, not_or]
      exact ⟨by decide, hp⟩
    · rw [data_append]; simp only [List.mem_append, not_or]
      exact ⟨by decide, hl⟩
    · rw [data_append]; simp only [List.mem_append, not_or]
      exact ⟨by decide, hs⟩
    · rw [data_append]; simp only [List.mem_append, not_or]
      exact ⟨by decide, hd⟩
    · obtain ⟨a, ha, rfl⟩ := hk
      simp only [data_append, List.mem_append, not_or]
      exact ⟨⟨⟨by decide, (hfk a ha).1⟩, by decide⟩, (hfk a ha).2.2⟩
    · rw [data_append]; simp only [List.mem_append, not_or]
      exact ⟨by decide, hmacHex_no_amp _ _⟩)]
  simp only [List.map_append, List.map_cons, List.map_nil, List.map_map]
  have e1 : splitEq1 (("partner=" ++ partner).data) =
      ("partner".data, partner.data) := rfl
  have e2 : splitEq1 (("learner_key=" ++ learnerKey).data) =
      ("learner_key".data, learnerKey.data) := rfl
  have e3 : splitEq1 (("salt=" ++ salt).data) =
      ("salt".data, salt.data) := rfl
  have e4 : splitEq1 (("date_expires=" ++ dateExpires).data) =
      ("date_expires".data, dateExpires.data) := rfl
  have e5 : splitEq1 (("signature=" ++ hmacHex secret (encodeClaim partner
      learnerKey salt dateExpires fields)).data) =
      ("signature".data, (hmacHex secret (encodeClaim partner learnerKey
        salt dateExpires fields)).data) := rfl
  rw [e1, e2, e3, e4, e5]
  have hmap : (sortedFields fields).map (splitEq1 ∘ String.data ∘
      fun key => "field_" ++ key ++ "=" ++ lookupField fields key) =
      (sortedFields fields).map (fun k => (("field_" ++ k).data,
        (lookupField fields k).data)) := by
    apply List.map_congr_left
    intro k hk
    have hseg : ("field_" ++ k ++ "=" ++ lookupField fields k).data =
        ("field_" ++ k).data ++ '=' :: (lookupField fields k).data := by
      rw [data_append, data_append, List.append_assoc]
      rfl
    have hne : '=' ∉ ("field_" ++ k).data := by
      rw [data_append]
      simp only [List.mem_append, not_or]
      exact ⟨by decide, (hfk k hk).2.1⟩
    show splitEq1 (("field_" ++ k ++ "=" ++ lookupField fields k).data) = _
    rw [hseg, splitEq1_append hne]
  rw [hmap]
  simp [List.cons_append, List.nil_append, List.append_assoc]

/-- Re-sorting the reconstructed (already sorted) field list is the
identity. -/
theorem sortedFields_map_pair (fields : List (String × String)) :
    sortedFields ((sortedFields fields).map
      (fun k => (k, lookupField fields k))) = sortedFields fields := by
  have hkeys : ((sortedFields fields).map
      (fun k => (k, lookupField fields k))).map Prod.fst =
      sortedFields fields := by
    rw [List.map_map]
    exact (List.map_congr_left fun a _ => rfl).trans (List.map_id _)
  show List.insertionSort _ _ = _
  rw [show (((sortedFields fields).map (fun k => (k, lookupField fields
    k))).map Prod.fst) = sortedFields fields from hkeys]
  exact List.Sorted.insertionSort_eq (List.sorted_insertionSort _ _)

/-- Re-encoding the reconstructed field list reproduces the canonical
string. -/
theorem encodeClaim_extracted (partner learnerKey salt dateExpires : String)
    (fields : List (String × String)) :
    encodeClaim partner learnerKey salt dateExpires
        ((sortedFields fields).map (fun k => (k, lookupField fields k))) =
      encodeClaim partner learnerKey salt dateExpires fields := by
  simp only [encodeClaim, sortedFields_map_pair]
  congr 2
  apply List.map_congr_left
  intro k hk
  rw [lookupField_map_pair (lookupField fields) _ k hk]

/-- The reconstructed field list is the original record up to order. -/
theorem extracted_perm (fields : List (String × String))
    (hn : (fields.map Prod.fst).Nodup) :
    ((sortedFields fields).map
      (fun k => (k, lookupField fields k))).Perm fields := by
  have h1 : (sortedFields fields).Perm (fields.map Prod.fst) :=
    List.perm_insertionSort _ _
  have h2 := h1.map (fun k => (k, lookupField fields k))
  refine h2.trans ?_
  rw [List.map_map]
  have hid : ∀ kv ∈ fields,
      ((fun k => (k, lookupField fields k)) ∘ Prod.fst) kv = kv := by
    intro kv hkv
    obtain ⟨k, v⟩ := kv
    have hv : lookupField fields k = v := lookupField_mem hn hkv
    simp [Function.comp, hv]
  rw [List.map_congr_left hid]
  simp

/-- Every list is a `isPrefixOf`-prefix of itself followed by anything. -/
theorem isPrefixOf_append_self : ∀ (a b : List Char),
    a.isPrefixOf (a ++ b) = true := by
  intro a b
  induction a with
  | nil => simp [List.isPrefixOf]
  | cons c t ih =>
    show (c :: t).isPrefixOf (c :: (t ++ b)) = true
    simp [List.isPrefixOf, ih]

theorem lookupParam_cons_ne {p : List Char × List Char}
    {rest : List (List Char × List Char)} {k : List Char} (h : p.1 ≠ k) :
    lookupParam (p :: rest) k = lookupParam rest k := by
  simp [lookupParam, h]

/-- A `field_`-prefixed key is never the `signature` key. -/
theorem field_key_ne_signature (k : String) :
    ("field_" ++ k).data ≠ "signature".data := by
  intro h
  have h0 : (("field_" ++ k).data).head? = some 'f' := by
    rw [data_append]; rfl
  rw [h] at h0
  exact absurd h0 (by decide)

/-- Looking up `signature` skips every `field_`-prefixed parameter. -/
theorem lookupParam_fields_sig :
    ∀ (M : List (List Char × List Char)) (S : List Char),
      (∀ q ∈ M, ∃ k : String, q.1 = ("field_" ++ k).data) →
      lookupParam (M ++ [("signature".data, S)]) "signature".data = some S := by
  intro M
  induction M with
  | nil => intro S _; simp [lookupParam]
  | cons q t ih =>
    intro S h
    obtain ⟨k, hk⟩ := h q (List.mem_cons_self q t)
    rw [List.cons_append,
      lookupParam_cons_ne (by rw [hk]; exact field_key_ne_signature k)]
    exact ih S (fun q hq => h q (List.mem_cons_of_mem _ hq))

/-- The five lookups the verifier performs on a well-formed parameter
list. -/
theorem verify_params_lookups (pd ld sd dd S : List Char)
    (M : List (List Char × List Char))
    (hM : ∀ q ∈ M, ∃ k : String, q.1 = ("field_" ++ k).data) :
    lookupParam (("partner".data, pd) :: ("learner_key".data, ld) ::
        ("salt".data, sd) :: ("date_expires".data, dd) ::
        (M ++ [("signature".data, S)])) "signature".data = some S ∧
    lookupParam (("partner".data, pd) :: ("learner_key".data, ld) ::
        ("salt".data, sd) :: ("date_expires".data, dd) ::
        (M ++ [("signature".data, S)])) "partner".data = some pd ∧
    lookupParam (("partner".data, pd) :: ("learner_key".data, ld) ::
        ("salt".data, sd) :: ("date_expires".data, dd) ::
        (M ++ [("signature".data, S)])) "learner_key".data = some ld ∧
    lookupParam (("partner".data, pd) :: ("learner_key".data, ld) ::
        ("salt".data, sd) :: ("date_expires".data, dd) ::
        (M ++ [("signature".data, S)])) "salt".data = some sd ∧
    lookupParam (("partner".data, pd) :: ("learner_key".data, ld) ::
        ("salt".data, sd) :: ("date_expires".data, dd) ::
        (M ++ [("signature".data, S)])) "date_expires".data = some dd := by
  refine ⟨?_, rfl, rfl, rfl, rfl⟩
  show lookupParam (M ++ [("signature".data, S)]) "signature".data = some S
  exact lookupParam_fields_sig M S hM

/-- The verifier's field filter keeps exactly the `field_`-prefixed
parameters. -/
theorem verify_params_filter (pd ld sd dd S : List Char)
    (M : List (List Char × List Char))
    (hM : ∀ q ∈ M, ("field_".data.isPrefixOf q.1) = true) :
    List.filter (fun q => "field_".data.isPrefixOf q.1)
      (("partner".data, pd) :: ("learner_key".data, ld) ::
        ("salt".data, sd) :: ("date_expires".data, dd) ::
        (M ++ [("signature".data, S)])) = M := by
  show List.filter (fun q => "field_".data.isPrefixOf q.1)
    (M ++ [("signature".data, S)]) = M
  rw [List.filter_append, List.filter_eq_self.mpr hM,
    show List.filter (fun q => "field_".data.isPrefixOf q.1)
      [(("signature".data : List Char), S)] = [] from rfl,
    List.append_nil]

/-- Stripping the `field_` prefix recovers the sorted key-value pairs. -/
theorem verify_fields_extract (fields : List (String × String)) :
    ((sortedFields fields).map (fun k => (("field_" ++ k).data,
        (lookupField fields k).data))).map
      (fun q => ((⟨q.1.drop 6⟩ : String), (⟨q.2⟩ : String))) =
      (sortedFields fields).map (fun k => (k, lookupField fields k)) := by
  rw [List.map_map]
  exact List.map_congr_left fun k _ => rfl

/-- C5: the round trip — for every claim with distinct field keys, whose
values avoid `'&'` and whose field keys avoid `'='` and `'&'` (the
spec's parseability caveat), and every secret, signing at a time the
expiry check accepts and verifying before the expiry succeeds and
returns a claim equal to the original (the fields as a map, i.e. up to
order). -/
theorem verify_sign_round_trip
    (partner learnerKey salt dateExpires secret : String)
    (fields : List (String × String)) (t now₀ now₁ : Nat)
    (hparse : parseDate dateExpires = some t)
    (hsign : ¬ t < now₀) (hver : now₁ < t)
    (hnodup : (fields.map Prod.fst).Nodup)
    (hp : '&' ∉ partner.data) (hl : '&' ∉ learnerKey.data)
    (hs : '&' ∉ salt.data) (hd : '&' ∉ dateExpires.data)
    (hf : ∀ kv ∈ fields, '&' ∉ (Prod.fst kv).data ∧
      '=' ∉ (Prod.fst kv).data ∧ '&' ∉ (Prod.snd kv).data) :
    ∃ tok : String,
      generateInvitationClaim partner fields secret learnerKey salt
          dateExpires now₀ = .ok tok ∧
      ∃ c : InvitationClaim, verifyClaim tok secret now₁ = .ok c ∧
        c.partner = partner ∧ c.learnerKey = learnerKey ∧ c.salt = salt ∧
        c.dateExpires = dateExpires ∧ c.fields.Perm fields := by
  have hok := generateInvitationClaim_ok partner fields secret learnerKey
    salt dateExpires now₀ (by simp [dateBeforeNow, hparse, hsign])
  refine ⟨_, hok, ?_⟩
  refine ⟨⟨partner, learnerKey, salt, dateExpires,
    (sortedFields fields).map (fun k => (k, lookupField fields k))⟩, ?_,
    rfl, rfl, rfl, rfl, extracted_perm fields hnodup⟩
  have hparams := token_params partner learnerKey salt dateExpires secret
    fields hp hl hs hd hf
  have hM : ∀ q ∈ (sortedFields fields).map (fun k => (("field_" ++ k).data,
      (lookupField fields k).data)), ∃ k : String,
      q.1 = ("field_" ++ k).data := by
    intro q hq
    obtain ⟨k, _, rfl⟩ := List.mem_map.mp hq
    exact ⟨k, rfl⟩
  have hM' : ∀ q ∈ (sortedFields fields).map (fun k => (("field_" ++ k).data,
      (lookupField fields k).data)),
      ("field_".data.isPrefixOf q.1) = true := by
    intro q hq
    obtain ⟨k, _, rfl⟩ := List.mem_map.mp hq
    show "field_".data.isPrefixOf (("field_" ++ k).data) = true
    rw [data_append]
    exact isPrefixOf_append_self _ _
  obtain ⟨e1, e2, e3, e4, e5⟩ := verify_params_lookups partner.data
    learnerKey.data salt.data dateExpires.data
    (hmacHex secret (encodeClaim partner learnerKey salt dateExpires
      fields)).data
    ((sortedFields fields).map (fun k => (("field_" ++ k).data,
      (lookupField fields k).data))) hM
  simp only [verifyClaim]
  rw [hparams, e1, e2, e3, e4, e5]
  dsimp only
  rw [mk_data partner, mk_data learnerKey, mk_data salt, mk_data dateExpires,
    verify_params_filter _ _ _ _ _ _ hM', verify_fields_extract,
    encodeClaim_extracted, constTimeEq_self, if_pos rfl, hparse]
  dsimp only
  rw [if_neg (lt_asymm hver)]

theorem verify_sign_round_trip_witness :
    ∃ tok : String,
      generateInvitationClaim "acme" [("code", "ABC123")] "s3cr3t" "lk_001"
          "deadbeef" "2025-01-01T00:15:00" 0 = .ok tok ∧
      ∃ c : InvitationClaim, verifyClaim tok "s3cr3t" 0 = .ok c ∧
        c.partner = "acme" ∧ c.learnerKey = "lk_001" ∧ c.salt = "deadbeef" ∧
        c.dateExpires = "2025-01-01T00:15:00" ∧
        c.fields.Perm [("code", "ABC123")] :=
  verify_sign_round_trip "acme" "lk_001" "deadbeef" "2025-01-01T00:15:00"
    "s3cr3t" [("code", "ABC123")] 1735690500000 0 0 (by decide) (by decide)
    (by decide) (by decide) (by decide) (by decide) (by decide) (by decide)
    (by decide)

end Aevium
